import Mathlib

/-!
Verification of the company-enrichment pipeline (`generator.py`).

Strings are modelled as `List Char`.  External collaborators (the
DuckDuckGo search provider, the HTTP fetcher `safe_get`, the
`BeautifulSoup` HTML parser and the fuzzy `dateutil` date parser) are
modelled as parameters bundled in an `Oracle` structure, following the
spec's "external interfaces" section: each of them is an untrusted
black box, and every property proved here is quantified over them.
-/

/-- Converts a Lean string literal to the `List Char` representation
used throughout the development. -/
def TL (s : String) : List Char := s.toList

/-- Python whitespace for `str.strip()` / `str.split()` / `\s`
(ASCII fragment: space, tab, newline, carriage return, vertical tab,
form feed). -/
def pyIsSpace (c : Char) : Bool :=
  c = ' ' || c = '\t' || c = '\n' || c = '\x0d' || c = '\x0b' || c = '\x0c'

/-- Python `str.strip()` (ASCII whitespace). -/
def pyStrip (l : List Char) : List Char :=
  ((l.dropWhile pyIsSpace).reverse.dropWhile pyIsSpace).reverse

/-- ASCII `str.lower()` on a single character. -/
def lowerChar (c : Char) : Char :=
  if 'A' ≤ c ∧ c ≤ 'Z' then Char.ofNat (c.toNat + 32) else c

/-- ASCII `str.lower()`. -/
def pyLower (l : List Char) : List Char := l.map lowerChar

/-- Python `pat in s` substring test (the empty pattern is contained in
everything, as in Python). -/
def pySubstr (pat : List Char) : List Char → Bool
  | [] => pat.isEmpty
  | c :: rest => pat.isPrefixOf (c :: rest) || pySubstr pat rest

/-- Case-insensitive substring test, modelling `re.search(pat, s, re.I)`
for a literal alternative `pat`. -/
def pySubstrCI (pat : List Char) (s : List Char) : Bool :=
  pySubstr (pyLower pat) (pyLower s)

/-- Python `str.rstrip("/")`. -/
def rstripSlash (l : List Char) : List Char :=
  (l.reverse.dropWhile (fun c => c = '/')).reverse

/-- A pandas cell: `none` models a missing value (`NaN`); `some s` a
string value. -/
abbrev Cell := Option (List Char)

/-- Python `str(cell)`: `str(float('nan'))` is the string `"nan"`. -/
def pyStrCell : Cell → List Char
  | none => TL "nan"
  | some s => s

/-- `normalize_url` (generator.py lines 46-54).  `pd.isna(u)` is the
`none` case; `not u` the empty-string case; then strip, prepend
`https://` when `re.match(r"^https?://", u)` fails, and strip trailing
slashes. -/
def schemeMatch (u : List Char) : Bool :=
  (TL "http://").isPrefixOf u || (TL "https://").isPrefixOf u

def normalize_url : Cell → List Char
  | none => []
  | some s =>
    if s = [] then []
    else
      let u := pyStrip s
      if u = [] then []
      else
        let u2 := if schemeMatch u then u else TL "https://" ++ u
        rstripSlash u2

/-! ## Model of `urllib.parse.urlsplit` (netloc and path components)

Modelled from CPython's `urlsplit`: strip WHATWG C0-control-or-space
characters from both ends, remove all tab/CR/LF characters, split off a
`scheme:` prefix when every character before the first colon is a scheme
character, read the netloc after a leading `//` up to the first of
`/?#`, and raise `ValueError` (the `.error` case) when exactly one of
`[`/`]` occurs in the netloc (full bracketed-IPv6 validation is not
modelled; no claim exercises bracketed hosts). -/

def isC0OrSpace (c : Char) : Bool := c.toNat ≤ 32

def isUnsafeUrlChar (c : Char) : Bool := c = '\t' || c = '\r' || c = '\n'

def isSchemeChar (c : Char) : Bool :=
  c.isAlpha || c.isDigit || c = '+' || c = '-' || c = '.'

/-- Scheme splitting of `urlsplit`: returns (lowered scheme, rest).
`url.find(':')` yielding no hit or a hit at index 0, or a non-scheme
character before the colon, leaves the url unsplit. -/
def splitSchemePair (url : List Char) : List Char × List Char :=
  if (url.takeWhile (fun c => c ≠ ':')).length = url.length then ([], url)
  else if (url.takeWhile (fun c => c ≠ ':')).length = 0 then ([], url)
  else if (url.takeWhile (fun c => c ≠ ':')).all isSchemeChar then
    (pyLower (url.takeWhile (fun c => c ≠ ':')),
      url.drop ((url.takeWhile (fun c => c ≠ ':')).length + 1))
  else ([], url)

structure UrlParts where
  scheme : List Char
  netloc : List Char
  path : List Char
deriving DecidableEq, Repr

def isNetlocStop (c : Char) : Bool := c = '/' || c = '?' || c = '#'

def isPathStop (c : Char) : Bool := c = '?' || c = '#'

/-- The WHATWG strip-and-remove preprocessing of `urlsplit`. -/
def cleanUrl (url0 : List Char) : List Char :=
  (((url0.dropWhile isC0OrSpace).reverse.dropWhile isC0OrSpace).reverse).filter
    (fun c => !isUnsafeUrlChar c)

/-- The mismatched-bracket `ValueError` check of `urlsplit` and the
final assembly of the parts. -/
def bracketCheck (scheme n after : List Char) : Except Unit UrlParts :=
  if (('[' ∈ n) ∧ (']' ∉ n)) ∨ ((']' ∈ n) ∧ ('[' ∉ n)) then .error ()
  else .ok ⟨scheme, n, after.takeWhile (fun c => !isPathStop c)⟩

/-- Netloc extraction: present only after a leading `//`, running up to
the first of `/?#`. -/
def netlocSplit (scheme rest : List Char) : Except Unit UrlParts :=
  if (TL "//").isPrefixOf rest then
    bracketCheck scheme ((rest.drop 2).takeWhile (fun c => !isNetlocStop c))
      ((rest.drop 2).drop ((rest.drop 2).takeWhile (fun c => !isNetlocStop c)).length)
  else .ok ⟨scheme, [], rest.takeWhile (fun c => !isPathStop c)⟩

/-- `urlsplit` after preprocessing. -/
def urlsplitCore (url : List Char) : Except Unit UrlParts :=
  netlocSplit (splitSchemePair url).1 (splitSchemePair url).2

def urlsplitE (url0 : List Char) : Except Unit UrlParts :=
  urlsplitCore (cleanUrl url0)

/-- `str.replace("www.", "")`: removes every non-overlapping occurrence
of `www.`, scanning left to right. -/
def removeWWW : List Char → List Char
  | 'w' :: 'w' :: 'w' :: '.' :: rest => removeWWW rest
  | c :: rest => c :: removeWWW rest
  | [] => []

/-- `domain_of` (generator.py lines 57-61):
`urlparse(url).netloc.lower().replace("www.", "")`, with the
`try/except` returning the empty string on a parse failure. -/
def domain_of (url : List Char) : List Char :=
  match urlsplitE url with
  | .error _ => []
  | .ok p => removeWWW (pyLower p.netloc)

/-- Modelled from the spec's words for C7, for comparison with the code:
"lowercases the host and strips a leading `www.` prefix (and only a
leading one)". -/
def domain_of_leading (url : List Char) : List Char :=
  match urlsplitE url with
  | .error _ => []
  | .ok p =>
    let d := pyLower p.netloc
    if (TL "www.").isPrefixOf d then d.drop 4 else d

/-! ## `pick_best_site` (generator.py lines 64-82) -/

/-- A character of the class `[a-z0-9]` (after lowering). -/
def isLowerAlnum (c : Char) : Bool :=
  ('a' ≤ c && c ≤ 'z') || ('0' ≤ c && c ≤ '9')

/-- `re.sub(r"[^a-z0-9]+", " ", s)`: replaces each maximal run of
characters outside `[a-z0-9]` with a single space.  The Boolean flag
records whether the scan currently sits inside such a run (whose single
replacement space has already been emitted). -/
def subNonAlnumRunsAux : Bool → List Char → List Char
  | _, [] => []
  | inRun, c :: rest =>
    if isLowerAlnum c then c :: subNonAlnumRunsAux false rest
    else if inRun then subNonAlnumRunsAux true rest
    else ' ' :: subNonAlnumRunsAux true rest

def subNonAlnumRuns (l : List Char) : List Char := subNonAlnumRunsAux false l

/-- Python `str.split()` with no argument: splits on runs of whitespace
and drops empty pieces. -/
def pySplitWsAux (cur : List Char) : List Char → List (List Char)
  | [] => if cur = [] then [] else [cur.reverse]
  | c :: rest =>
    if pyIsSpace c then
      if cur = [] then pySplitWsAux [] rest else cur.reverse :: pySplitWsAux [] rest
    else pySplitWsAux (c :: cur) rest

def pySplitWs (l : List Char) : List (List Char) := pySplitWsAux [] l

/-- Python `str.strip("/")`. -/
def stripSlashBoth (l : List Char) : List Char :=
  ((l.dropWhile (fun c => c = '/')).reverse.dropWhile (fun c => c = '/')).reverse

/-- The top-level-domain allow-list of `re.search(r"\.(com|org|net|io|co|gov|edu)$", d)`. -/
def tldSuffixes : List (List Char) :=
  [TL ".com", TL ".org", TL ".net", TL ".io", TL ".co", TL ".gov", TL ".edu"]

/-- The score of one candidate URL in `pick_best_site`.  The
`urlparse(url).path` call on line 76 is not guarded by a `try`, so a
URL the parser rejects raises out of the function: the `.error` case. -/
def scoreE (tokens : List (List Char)) (url : List Char) : Except Unit Int :=
  let d := domain_of url
  let tokScore : Int := 3 * ((tokens.filter (fun t => pySubstr t d)).length : Int)
  match urlsplitE url with
  | .error _ => .error ()
  | .ok p =>
    let pathlen : Nat := ((stripSlashBoth p.path).splitOn '/').length
    let tld : Int := if tldSuffixes.any (fun s => s.isSuffixOf d) then 1 else 0
    .ok (tokScore - (min pathlen 3 : Nat) + tld)

/-- Python `<` on strings: lexicographic comparison of code points. -/
def strLtB : List Char → List Char → Bool
  | [], [] => false
  | [], _ :: _ => true
  | _ :: _, [] => false
  | a :: x, b :: y =>
    if a.toNat < b.toNat then true else if b.toNat < a.toNat then false else strLtB x y

/-- Python `<` on `(score, url)` tuples. -/
def tupLtB (a b : Int × List Char) : Bool :=
  if a.1 < b.1 then true else if b.1 < a.1 then false else strLtB a.2 b.2

/-- One insertion step of a descending sort; `scored.sort(reverse=True)`
is modelled by `sortDesc`, whose head is the maximal tuple, which is all
the function's caller uses (`scored[0][1]`). -/
def insertDesc (x : Int × List Char) : List (Int × List Char) → List (Int × List Char)
  | [] => [x]
  | y :: ys => if tupLtB y x then x :: y :: ys else y :: insertDesc x ys

def sortDesc (l : List (Int × List Char)) : List (Int × List Char) :=
  l.foldr insertDesc []

/-- The `for url in results: ... scored.append((score, url))` loop. -/
def build_scored (tokens : List (List Char)) : List (List Char) → Except Unit (List (Int × List Char))
  | [] => .ok []
  | url :: rest =>
    (scoreE tokens url).bind fun s =>
      (build_scored tokens rest).map fun t => (s, url) :: t

/-- `pick_best_site` (generator.py lines 64-82). -/
def pick_best_site (results : List (List Char)) (company_name : List Char) :
    Except Unit (Option (List Char)) :=
  if results = [] then .ok none
  else
    let cname := subNonAlnumRuns (pyLower company_name)
    let tokens := (pySplitWs cname).filter (fun t => !t.isEmpty && 2 < t.length)
    (build_scored tokens results).map fun scored =>
      ((sortDesc scored).head?).map (fun x => x.2)

/-- Modelled from the spec's words for C6, for comparison with the code:
the claimed score subtracts `min(path-segment-count, 3)` where an empty
path contributes zero segments. -/
def claimScore (tokens : List (List Char)) (url : List Char) : Int :=
  let d := domain_of url
  let tokScore : Int := 3 * ((tokens.filter (fun t => pySubstr t d)).length : Int)
  let path := match urlsplitE url with
    | .error _ => []
    | .ok p => p.path
  let stripped := stripSlashBoth path
  let segs : Nat := if stripped = [] then 0 else (stripped.splitOn '/').length
  let tld : Int := if tldSuffixes.any (fun s => s.isSuffixOf d) then 1 else 0
  tokScore - (min segs 3 : Nat) + tld

/-- The claim's tokenization of a company name (shared by the code and
the spec reading). -/
def nameTokens (company_name : List Char) : List (List Char) :=
  (pySplitWs (subNonAlnumRuns (pyLower company_name))).filter
    (fun t => !t.isEmpty && 2 < t.length)

/-- `(score v, v)` is at most `(score u, u)` in Python tuple order (the
order `scored.sort(reverse=True)` maximizes); `false` when either URL
makes the score raise. -/
def scoreLeB (tokens : List (List Char)) (v u : List Char) : Bool :=
  match scoreE tokens v, scoreE tokens u with
  | .ok sv, .ok su => !tupLtB (su, u) (sv, v)
  | _, _ => false

/-- `urljoin(base, href)` for the root-relative case the parsers
exercise (`href.startswith("/")`): a href starting `//` replaces the
authority, otherwise the path is replaced.  The real `urljoin` raises on
a base the URL parser rejects; every call site in the source sits inside
a `try` block, and the model simply returns the href there. -/
def urljoin_rootrel (base href : List Char) : List Char :=
  match urlsplitE base with
  | .error _ => href
  | .ok p =>
    let sp := if p.scheme = [] then [] else p.scheme ++ TL ":"
    if (TL "//").isPrefixOf href then sp ++ href
    else if p.netloc ≠ [] then sp ++ TL "//" ++ p.netloc ++ href
    else sp ++ href

/-! ## Abstract HTML documents

The spec lists the HTML parser as an external collaborator
("CSS-selector-capable document parser with text extraction"), so a
fetched document is modelled as a tree of element/text nodes (tag names
already lower-cased, as `html.parser` produces them), and the
`BeautifulSoup(...)` call is the oracle's `parse` function from raw
text to such a forest. -/

inductive Node where
  | text (s : List Char)
  | elem (tag : List Char) (attrs : List (List Char × List Char)) (children : List Node)
deriving Repr

/-- An HTTP response as `safe_get` returns it: status code and raw body
text.  `safe_get` itself (retries, timeout) degrades any transport
failure to `None`, which the oracle's `get` models directly. -/
structure Response where
  status : Nat
  text : List Char
deriving DecidableEq, Repr

/-- The external collaborators of the pipeline: the search provider
(`search_duckduckgo`, failures already degraded to `[]`), the HTTP
fetcher (`safe_get`, failures degraded to `none`) and the HTML parser
(`BeautifulSoup(_, "html.parser")`). -/
structure Oracle where
  search : List Char → Nat → List (List Char)
  get : List Char → Option Response
  parse : List Char → List Node

def tagOf : Node → List Char
  | .text _ => []
  | .elem t _ _ => t

def attrsOf : Node → List (List Char × List Char)
  | .text _ => []
  | .elem _ a _ => a

/-- `tag.get(key)`. -/
def attrGet (n : Node) (k : List Char) : Option (List Char) :=
  ((attrsOf n).find? (fun a => a.1 == k)).map (fun a => a.2)

mutual

/-- All element nodes of a forest in document (preorder) order. -/
def elemsPreN : Node → List Node
  | .text _ => []
  | .elem t a cs => Node.elem t a cs :: elemsPreF cs

def elemsPreF : List Node → List Node
  | [] => []
  | n :: rest => elemsPreN n ++ elemsPreF rest

end

mutual

/-- All text-node strings of a forest in document order
(`Tag._all_strings` without stripping). -/
def allStringsN : Node → List (List Char)
  | .text s => [s]
  | .elem _ _ cs => allStringsF cs

def allStringsF : List Node → List (List Char)
  | [] => []
  | n :: rest => allStringsN n ++ allStringsF rest

end

/-- `get_text(separator, strip=True)`: each string stripped, empty ones
skipped, remainder joined with the separator. -/
def strippedStrings (doc : List Node) : List (List Char) :=
  ((allStringsF doc).map pyStrip).filter (fun s => !s.isEmpty)

def getTextSepStripF (sep : List Char) (doc : List Node) : List Char :=
  List.intercalate sep (strippedStrings doc)

def getTextSepStripN (sep : List Char) (n : Node) : List Char :=
  getTextSepStripF sep [n]

/-- `get_text(strip=True)` (empty separator). -/
def getTextStripN (n : Node) : List Char := getTextSepStripF [] [n]

/-- `get_text()` with no arguments: plain concatenation. -/
def getTextRawF (doc : List Node) : List Char :=
  (allStringsF doc).foldr (fun a b => a ++ b) []

/-- `str(node)`: serialization with minimal entity escaping, as
BeautifulSoup's default formatter emits it. -/
def escTextChar (c : Char) : List Char :=
  if c = '&' then TL "&amp;"
  else if c = '<' then TL "&lt;"
  else if c = '>' then TL "&gt;"
  else [c]

def escText (s : List Char) : List Char :=
  s.foldr (fun c acc => escTextChar c ++ acc) []

def escAttrChar (c : Char) : List Char :=
  if c = '&' then TL "&amp;"
  else if c = '"' then TL "&quot;"
  else [c]

def serializeAttrs (attrs : List (List Char × List Char)) : List Char :=
  attrs.foldr
    (fun a acc => ' ' :: (a.1 ++ '=' :: '"' :: (a.2.foldr (fun c r => escAttrChar c ++ r) ('"' :: acc)))) []

mutual

def serializeN : Node → List Char
  | .text s => escText s
  | .elem t a cs =>
    '<' :: (t ++ serializeAttrs a ++ '>' :: (serializeF cs ++ '<' :: '/' :: (t ++ ['>'])))

def serializeF : List Node → List Char
  | [] => []
  | n :: rest => serializeN n ++ serializeF rest

end

/-- Truthiness of a node in Python: an empty `NavigableString` is falsy,
a `Tag` is truthy. -/
def nodeTruthy : Node → Bool
  | .text s => !s.isEmpty
  | .elem _ _ _ => true

/-- `class` attribute split into words (HTML multi-valued attribute). -/
def hasClassWord (n : Node) (w : List Char) : Bool :=
  match attrGet n (TL "class") with
  | some v => (pySplitWs v).any (fun x => x == w)
  | none => false

/-! ## Listing parsers (generator.py lines 165-282) -/

structure JobEntry where
  url : List Char
  title : List Char
deriving DecidableEq, Repr

def MAX_JOBS_PER_COMPANY : Nat := 3

def MAX_SEARCH_RESULTS : Nat := 10

/-- `soup.select("a[href*='<s>'], ...")` for attribute-substring anchor
selectors: the anchors, in document order, whose `href` contains one of
the fragments. -/
def anchorHrefHasAny (subs : List (List Char)) (n : Node) : Bool :=
  tagOf n == TL "a" &&
    match attrGet n (TL "href") with
    | some v => subs.any (fun p => pySubstr p v)
    | none => false

def selectAnchors (subs : List (List Char)) (doc : List Node) : List Node :=
  (elemsPreF doc).filter (anchorHrefHasAny subs)

/-- `soup.select("a[href*='/jobs/'], div.opening a")` for the greenhouse
parser: additionally any anchor below a `div` with class `opening`;
document order, each node once. -/
def isOpeningDiv (n : Node) : Bool :=
  tagOf n == TL "div" && hasClassWord n (TL "opening")

mutual

def ghSelN (inOpen : Bool) : Node → List Node
  | .text _ => []
  | .elem t a cs =>
    let n := Node.elem t a cs
    (if anchorHrefHasAny [TL "/jobs/"] n || (tagOf n == TL "a" && inOpen) then [n] else [])
      ++ ghSelF (inOpen || isOpeningDiv n) cs

def ghSelF (inOpen : Bool) : List Node → List Node
  | [] => []
  | n :: rest => ghSelN inOpen n ++ ghSelF inOpen rest

end

/-- The shared anchor loop of every listing parser (generator.py
lines 172-185 and its verbatim copies): skip missing/empty hrefs,
resolve hrefs starting with `/` against the listing URL, deduplicate by
that resolved href, emit `{normalize_url(href), anchor text}`, and stop
once `MAX_JOBS_PER_COMPANY` entries exist. -/
def listingLoop (listing_url : List Char) :
    List Node → List (List Char) → List JobEntry → List JobEntry
  | [], _, out => out
  | a :: rest, seen, out =>
    match attrGet a (TL "href") with
    | none => listingLoop listing_url rest seen out
    | some href0 =>
      if href0.isEmpty then listingLoop listing_url rest seen out
      else
        let href := if href0.head? = some '/' then urljoin_rootrel listing_url href0 else href0
        if seen.contains href then listingLoop listing_url rest seen out
        else
          let out2 := out ++ [⟨normalize_url (some href), getTextStripN a⟩]
          if MAX_JOBS_PER_COMPANY ≤ out2.length then out2
          else listingLoop listing_url rest (href :: seen) out2

def parse_teamtailor_listings (ω : Oracle) (listing_url : List Char) : List JobEntry :=
  match ω.get listing_url with
  | none => []
  | some resp =>
    if resp.status ≠ 200 then []
    else listingLoop listing_url (selectAnchors [TL "/jobs/"] (ω.parse resp.text)) [] []

def parse_lever_listings (ω : Oracle) (listing_url : List Char) : List JobEntry :=
  match ω.get listing_url with
  | none => []
  | some resp =>
    if resp.status ≠ 200 then []
    else listingLoop listing_url (selectAnchors [TL "/jobs/"] (ω.parse resp.text)) [] []

def parse_greenhouse_listings (ω : Oracle) (listing_url : List Char) : List JobEntry :=
  match ω.get listing_url with
  | none => []
  | some resp =>
    if resp.status ≠ 200 then []
    else listingLoop listing_url (ghSelF false (ω.parse resp.text)) [] []

def parse_workable_listings (ω : Oracle) (listing_url : List Char) : List JobEntry :=
  match ω.get listing_url with
  | none => []
  | some resp =>
    if resp.status ≠ 200 then []
    else listingLoop listing_url (selectAnchors [TL "/jobs/"] (ω.parse resp.text)) [] []

def parse_personio_listings (ω : Oracle) (listing_url : List Char) : List JobEntry :=
  match ω.get listing_url with
  | none => []
  | some resp =>
    if resp.status ≠ 200 then []
    else listingLoop listing_url (selectAnchors [TL "/job/", TL "/jobs/"] (ω.parse resp.text)) [] []

/-! ## Job detail extractor (generator.py lines 285-330) -/

structure JobDetails where
  title : List Char
  location : List Char
  date : List Char
  snippet : List Char
deriving DecidableEq, Repr

/-- The external fuzzy date parser
(`dateparser.parse(s, fuzzy=True).date().isoformat()`): `none` models
the `except` branch. -/
def DateParse := List Char → Option (List Char)

/-- First tag with the given name, in document order (`soup.find`). -/
def firstTagF (name : List Char) (doc : List Node) : Option Node :=
  (elemsPreF doc).find? (fun n => tagOf n == name)

mutual

/-- `tag.string`: the single text child, descending through single-child
tags. -/
def nodeString : Node → Option (List Char)
  | .text s => some s
  | .elem _ _ cs => nodeStringList cs

def nodeStringList : List Node → Option (List Char)
  | [c] => nodeString c
  | _ => none

end

/-- The title heuristic: `<title>`'s string (when truthy), overridden by
the first `<h1>`'s stripped text when that is non-empty. -/
def titleOf (doc : List Node) : List Char :=
  let t0 := match firstTagF (TL "title") doc with
    | some tn =>
      match nodeString tn with
      | some s => if s.isEmpty then [] else pyStrip s
      | none => []
    | none => []
  match firstTagF (TL "h1") doc with
  | some h =>
    let g := getTextStripN h
    if g.isEmpty then t0 else g
  | none => t0

/-- `re.compile(r"Location|location|City|city", re.I).search(s)`. -/
def locPred (s : List Char) : Bool :=
  pySubstrCI (TL "location") s || pySubstrCI (TL "city") s

/-- `re.compile(r"Posted|posted|Date|date|Published|published", re.I).search(s)`. -/
def datePred (s : List Char) : Bool :=
  pySubstrCI (TL "posted") s || pySubstrCI (TL "date") s || pySubstrCI (TL "published") s

mutual

/-- `soup.find_all(text=locPred)` paired with each hit's
`parent.next_sibling`.  The recursion walks an element's child list
carrying that element's own next sibling: a text child's parent is the
element, so the pair records the element's next sibling; an element
child recurses with its successor in the list.  Top-level text nodes
have the soup object as parent, whose `next_sibling` is `None`. -/
def locCandNode : Node → Option Node → Option Node → List (List Char × Option Node)
  | .text s, parentNext, _ => if locPred s then [(s, parentNext)] else []
  | .elem _ _ cs, _, ownNext => locCandChildren cs ownNext

def locCandChildren : List Node → Option Node → List (List Char × Option Node)
  | [], _ => []
  | n :: rest, ens => locCandNode n ens rest.head? ++ locCandChildren rest ens

end

/-- `re.sub(r"\s+", " ", s)`. -/
def collapseWsAux : Bool → List Char → List Char
  | _, [] => []
  | inRun, c :: rest =>
    if pyIsSpace c then
      if inRun then collapseWsAux true rest else ' ' :: collapseWsAux true rest
    else c :: collapseWsAux false rest

def collapseWs (l : List Char) : List Char := collapseWsAux false l

/-- The location loop (generator.py lines 297-304): first candidate
whose parent has a truthy next sibling serializing to fewer than 200
characters wins; the sibling's serialization is re-parsed and its text
whitespace-collapsed and stripped (the loop breaks there even when the
resulting text is empty). -/
def locLoop (ω : Oracle) : List (List Char × Option Node) → List Char
  | [] => []
  | (_, none) :: rest => locLoop ω rest
  | (_, some sib) :: rest =>
    if !nodeTruthy sib then locLoop ω rest
    else
      let ls := serializeF [sib]
      if ls.length < 200 then pyStrip (collapseWs (getTextRawF (ω.parse ls)))
      else locLoop ω rest

def locationOf (ω : Oracle) (doc : List Node) : List Char :=
  locLoop ω (locCandChildren doc none)

/-! ### The date regex

`re.search` for
`(\b\d{1,2}\s+\w+\s+\d{4}\b|\b\w+\s+\d{1,2},\s*\d{4}\b|\b\d{4}-\d{2}-\d{2}\b)`
(ASCII classes): positions are scanned left to right and the three
alternatives tried in order; `\d{1,2}` backtracks from two digits to
one; the runs `\s+`/`\w+` are maximal-munch (each is followed by a
disjoint character class, so no further backtracking can arise). -/

def isWordChar (c : Char) : Bool :=
  ('a' ≤ c && c ≤ 'z') || ('A' ≤ c && c ≤ 'Z') || ('0' ≤ c && c ≤ '9') || c = '_'

def matchDigits (k : Nat) (l : List Char) : Option (List Char) :=
  let d := l.take k
  if d.length = k then (if d.all Char.isDigit then some (l.drop k) else none) else none

def spacesRun (l : List Char) : Nat × List Char :=
  let s := l.takeWhile pyIsSpace
  (s.length, l.drop s.length)

def wordRun (l : List Char) : Nat × List Char :=
  let s := l.takeWhile isWordChar
  (s.length, l.drop s.length)

def boundaryAfter : List Char → Bool
  | [] => true
  | c :: _ => !isWordChar c

/-- `\d{k}\s+\w+\s+\d{4}\b`. -/
def alt1After (l : List Char) (k : Nat) : Option Nat :=
  (matchDigits k l).bind fun l1 =>
    let p1 := spacesRun l1
    if p1.1 = 0 then none
    else
      let p2 := wordRun p1.2
      if p2.1 = 0 then none
      else
        let p3 := spacesRun p2.2
        if p3.1 = 0 then none
        else
          (matchDigits 4 p3.2).bind fun l5 =>
            if boundaryAfter l5 then some (k + p1.1 + p2.1 + p3.1 + 4) else none

def matchAlt1 (l : List Char) : Option Nat :=
  (alt1After l 2).orElse (fun _ => alt1After l 1)

/-- `\w+\s+\d{k},\s*\d{4}\b`. -/
def alt2After (l : List Char) (k : Nat) : Option Nat :=
  let pw := wordRun l
  if pw.1 = 0 then none
  else
    let ps := spacesRun pw.2
    if ps.1 = 0 then none
    else
      (matchDigits k ps.2).bind fun l3 =>
        match l3 with
        | ',' :: l4 =>
          let pz := spacesRun l4
          (matchDigits 4 pz.2).bind fun l6 =>
            if boundaryAfter l6 then some (pw.1 + ps.1 + k + 1 + pz.1 + 4) else none
        | _ => none

def matchAlt2 (l : List Char) : Option Nat :=
  (alt2After l 2).orElse (fun _ => alt2After l 1)

/-- `\d{4}-\d{2}-\d{2}\b`. -/
def matchAlt3 (l : List Char) : Option Nat :=
  (matchDigits 4 l).bind fun l1 =>
    match l1 with
    | '-' :: l2 =>
      (matchDigits 2 l2).bind fun l3 =>
        match l3 with
        | '-' :: l4 =>
          (matchDigits 2 l4).bind fun l5 =>
            if boundaryAfter l5 then some 10 else none
        | _ => none
    | _ => none

/-- One scan position: the word boundary `\b` holds when the previous
character is absent or a non-word character (every alternative starts
with a word character). -/
def reSearchDateAux : Option Char → List Char → Option (List Char)
  | _, [] => none
  | prev, c :: rest =>
    let bnd := match prev with
      | none => true
      | some p => !isWordChar p
    let hit := if bnd then
        ((matchAlt1 (c :: rest)).orElse fun _ =>
          (matchAlt2 (c :: rest)).orElse fun _ => matchAlt3 (c :: rest))
      else none
    match hit with
    | some n => some ((c :: rest).take n)
    | none => reSearchDateAux (some c) rest

def reSearchDate (l : List Char) : Option (List Char) := reSearchDateAux none l

mutual

/-- `soup.find_all(text=datePred)` mapped to each hit's
`t.parent.get_text(" ", strip=True)`, in document order; a top-level
text node's parent is the soup itself, whose text is the whole
document's. -/
def dateCandNode : List Char → Node → List (List Char)
  | parentText, .text s => if datePred s then [parentText] else []
  | _, .elem t a cs => dateCandChildren (getTextSepStripN (TL " ") (.elem t a cs)) cs

def dateCandChildren (parentText : List Char) : List Node → List (List Char)
  | [] => []
  | n :: rest => dateCandNode parentText n ++ dateCandChildren parentText rest

end

/-- The date loop (generator.py lines 305-312): first candidate whose
parent text contains a date-shaped substring wins. -/
def dateTextOf (doc : List Node) : List Char :=
  ((dateCandChildren (getTextSepStripF (TL " ") doc) doc).findSome? reSearchDate).getD []

/-- `max(texts, key=len)`: the first text of maximal length. -/
def maxByLen (cur : List Char) : List (List Char) → List Char
  | [] => cur
  | x :: r => if cur.length < x.length then maxByLen x r else maxByLen cur r

/-- The ordered description-selector probes of generator.py line 314. -/
def selectDescription (doc : List Node) : Option Node :=
  let es := elemsPreF doc
  ((((es.find? (fun n => tagOf n == TL "div" && hasClassWord n (TL "job-description"))).orElse fun _ =>
      es.find? (fun n => tagOf n == TL "div" && hasClassWord n (TL "description"))).orElse fun _ =>
      es.find? (fun n => tagOf n == TL "section" && hasClassWord n (TL "job"))).orElse fun _ =>
      (es.find? (fun n => tagOf n == TL "div" && attrGet n (TL "id") == some (TL "job"))).orElse fun _ =>
      (es.find? (fun n => tagOf n == TL "article")).orElse fun _ =>
      es.find? (fun n =>
        tagOf n == TL "div" &&
          match attrGet n (TL "class") with
          | some v => pySubstr (TL "description") v
          | none => false))

/-- The fallback of lines 319-322: among all `p`/`div` elements whose
`get_text(strip=True)` exceeds 50 characters, the longest
`get_text(" ", strip=True)` (first of maximal length). -/
def fallbackText (doc : List Node) : List Char :=
  let texts := ((elemsPreF doc).filter
      (fun n => tagOf n == TL "p" || tagOf n == TL "div")).filterMap
    (fun n =>
      if 50 < (getTextStripN n).length then some (getTextSepStripN (TL " ") n) else none)
  match texts with
  | [] => []
  | t :: rest => maxByLen t rest

/-- `main_text` of generator.py lines 313-322: the first description
selector hit's text; when that is empty (no hit, or a hit with empty
text) the fallback. -/
def mainTextOf (doc : List Node) : List Char :=
  let m0 := match selectDescription doc with
    | some n => getTextSepStripN (TL " ") n
    | none => []
  if m0 = [] then fallbackText doc else m0

/-- `extract_job_details` (generator.py lines 285-330). -/
def extract_job_details (ω : Oracle) (dp : DateParse) (job_url : List Char) : JobDetails :=
  match ω.get job_url with
  | none => ⟨[], [], [], []⟩
  | some resp =>
    if resp.status ≠ 200 then ⟨[], [], [], []⟩
    else
      let doc := ω.parse resp.text
      let title := titleOf doc
      let location := locationOf ω doc
      let date_text := dateTextOf doc
      let main_text := mainTextOf doc
      let snippet := if main_text = [] then [] else main_text.take 500 ++ TL "..."
      let date_iso := if date_text = [] then []
        else match dp date_text with
          | some d => d
          | none => date_text
      ⟨title, location, date_iso, snippet⟩

/-! ## Resolver chain (generator.py lines 85-163 and 332-459) -/

/-- The fixed (label, host) pairs of `ATS_PROVIDERS`
(generator.py lines 20-29). -/
def ATS_PROVIDERS : List (List Char × List Char) :=
  [(TL "teamtailor", TL "teamtailor.com"),
   (TL "lever", TL "lever.co"),
   (TL "greenhouse", TL "greenhouse.io"),
   (TL "workable", TL "apply.workable.com"),
   (TL "personio", TL "personio.com"),
   (TL "zohorecruit", TL "zohorecruit.com"),
   (TL "smartrecruiters", TL "smartrecruiters.com"),
   (TL "workday", TL "workday.com")]

/-- `re.search(r"caree|job|join", u, re.I)`. -/
def careerWordHit (u : List Char) : Bool :=
  pySubstrCI (TL "caree") u || pySubstrCI (TL "job") u || pySubstrCI (TL "join") u

/-- The ATS host-pattern regex of generator.py line 401 (`re.I`). -/
def atsUrlHit (u : List Char) : Bool :=
  [TL "teamtailor", TL "lever.co", TL "greenhouse.io", TL "workable.com",
   TL "personio.com", TL "zohorecruit.com", TL "smartrecruiters.com"].any
    (fun p => pySubstrCI p u)

/-- `any(x in careers.lower() for x in ["careers", "jobs", "join"])`
(generator.py line 396). -/
def careersWordsInLower (c : List Char) : Bool :=
  [TL "careers", TL "jobs", TL "join"].any (fun x => pySubstr x (pyLower c))

/-- `find_linkedin_company` (generator.py lines 115-121). -/
def find_linkedin_company (ω : Oracle) (company : List Char) : List Char :=
  match (ω.search (TL "site:linkedin.com/company " ++ company) 6).find?
      (fun u => pySubstr (TL "linkedin.com/company") u) with
  | some u => normalize_url (some u)
  | none => []

/-- The candidate path suffixes of `find_careers_on_domain`. -/
def CAREERS_PATH_CANDIDATES : List (List Char) :=
  [TL "/careers", TL "/jobs", TL "/about/careers", TL "/company/careers",
   TL "/careers-us", TL "/join-us", TL "/work-with-us", TL "/join-our-team"]

def probeCareersPaths (ω : Oracle) (root : List Char) : List (List Char) → Option (List Char)
  | [] => none
  | c :: rest =>
    let url := rstripSlash root ++ c
    match ω.get url with
    | some resp =>
      if resp.status = 200 ∧ 200 < resp.text.length then some url
      else probeCareersPaths ω root rest
    | none => probeCareersPaths ω root rest

/-- `find_careers_on_domain` (generator.py lines 124-151). -/
def find_careers_on_domain (ω : Oracle) (domain_url : List Char) : List Char :=
  if domain_url = [] then []
  else
    let root := normalize_url (some domain_url)
    if root = [] then []
    else
      match probeCareersPaths ω root CAREERS_PATH_CANDIDATES with
      | some url => normalize_url (some url)
      | none =>
        let q := TL "site:" ++ domain_of root ++ TL " careers OR jobs"
        match (ω.search q 6).find?
            (fun u => domain_of u == domain_of root && careerWordHit u) with
        | some u => normalize_url (some u)
        | none => []

/-- `detect_ats_from_search` (generator.py lines 154-163): an
insertion-ordered mapping, modelled as an association list in
`ATS_PROVIDERS` order (Python dicts iterate in insertion order). -/
def detect_ats_from_search (ω : Oracle) (company : List Char) :
    List (List Char × List Char) :=
  ATS_PROVIDERS.filterMap (fun p =>
    ((ω.search (TL "site:" ++ p.2 ++ TL " " ++ company) 5).find?
        (fun u => pySubstr p.2 u)).map
      (fun u => (p.1, normalize_url (some u))))

/-- The fixed priority list of generator.py line 386 (`workday` is
absent). -/
def JOBLIST_PRIORITY : List (List Char) :=
  [TL "teamtailor", TL "lever", TL "greenhouse", TL "workable",
   TL "personio", TL "zohorecruit", TL "smartrecruiters"]

/-- The `for p in priority: if p in ats_hits: chosen = ats_hits[p]; break`
loop. -/
def priorityLoop : List (List Char) → List (List Char × List Char) → List Char
  | [], _ => []
  | p :: ps, hits =>
    match hits.find? (fun x => x.1 == p) with
    | some x => x.2
    | none => priorityLoop ps hits

/-- The job-board selection of generator.py lines 386-394: the first
priority label present in the hits wins; otherwise (`if not chosen`)
the first hit's URL (`next(iter(ats_hits.values()))`). -/
def choose_from_hits (ats_hits : List (List Char × List Char)) : List Char :=
  let chosen := priorityLoop JOBLIST_PRIORITY ats_hits
  if chosen = [] then
    match ats_hits with
    | [] => []
    | h :: _ => h.2
  else chosen

/-- The continuation of `find_official_site` after its first search
fails to produce a truthy best candidate: the retry with the bare
company name (generator.py lines 107-112). -/
def find_official_second (ω : Oracle) (company : List Char) : Except Unit (List Char) := do
  let r2 := ω.search company MAX_SEARCH_RESULTS
  let b2 ← if r2 = [] then pure none else pick_best_site r2 company
  match b2 with
  | some best => if best ≠ [] then return normalize_url (some best) else return []
  | none => return []

/-- `find_official_site` (generator.py lines 100-112).  The
`company_description` argument is accepted and unused, as in the
source.  `pick_best_site` can raise (see `scoreE`), hence the
`Except`. -/
def find_official_site (ω : Oracle) (company descr : List Char) : Except Unit (List Char) := do
  let r1 := ω.search (company ++ TL " official website") MAX_SEARCH_RESULTS
  let b1 ← if r1 = [] then pure none else pick_best_site r1 company
  match b1 with
  | some best =>
    if best ≠ [] then return normalize_url (some best) else find_official_second ω company
  | none => find_official_second ω company

/-! ## Per-row enrichment (generator.py lines 332-459)

A `Row` models one dataframe row after the column scaffolding of
lines 335-346 (the four URL columns exist, possibly `NaN`-valued, and
the `job_post{i}_*` columns exist, initialized to `""`).  `Cell`'s
`none` is a pandas `NaN`. -/

structure JobPost where
  url : List Char
  title : List Char
  location : List Char
  date : List Char
  snippet : List Char
deriving DecidableEq, Repr

def emptyJobPost : JobPost := ⟨[], [], [], [], []⟩

structure Row where
  companyName : Cell
  companyDescr : Cell
  website : Cell
  linkedin : Cell
  careers : Cell
  joblist : Cell
  jobs : List JobPost
deriving DecidableEq, Repr

/-- The generic fallback parser inlined at generator.py lines 422-439. -/
def genericJobListings (ω : Oracle) (joblist : List Char) : List JobEntry :=
  match ω.get joblist with
  | none => []
  | some resp =>
    if resp.status = 200 then
      listingLoop joblist
        (selectAnchors [TL "/jobs/", TL "/careers/", TL "/job/"] (ω.parse resp.text)) [] []
    else []

/-- The provider dispatch of generator.py lines 410-439.  The enclosing
`try/except: pass` leaves `jobs_to_write = []` when `urlparse` raises;
the parsers themselves are total in this model. -/
def dispatchListings (ω : Oracle) (joblist : List Char) : List JobEntry :=
  match urlsplitE joblist with
  | .error _ => []
  | .ok p =>
    let host := pyLower p.netloc
    if pySubstr (TL "teamtailor") host then parse_teamtailor_listings ω joblist
    else if pySubstr (TL "lever.co") host || pySubstr (TL "lever") joblist then
      parse_lever_listings ω joblist
    else if pySubstr (TL "greenhouse") host || pySubstr (TL "greenhouse") joblist then
      parse_greenhouse_listings ω joblist
    else if pySubstr (TL "workable") host || pySubstr (TL "apply.workable.com") host then
      parse_workable_listings ω joblist
    else if pySubstr (TL "personio") host then parse_personio_listings ω joblist
    else genericJobListings ω joblist

/-- The job-writing loop of generator.py lines 443-455: for each of the
first `MAX_JOBS_PER_COMPANY` entries, fetch details (or reuse the
anchor title when the URL is empty) and fill the `job_post{c}_*`
cells. -/
def writeJobs (ω : Oracle) (dp : DateParse) (jobs_to_write : List JobEntry) : List JobPost :=
  (jobs_to_write.take MAX_JOBS_PER_COMPANY).map (fun job =>
    let jurl := job.url
    let jtitle_guess := job.title
    let details := if jurl ≠ [] then extract_job_details ω dp jurl
      else ⟨jtitle_guess, [], [], []⟩
    ⟨jurl,
      (if details.title = [] then jtitle_guess else details.title),
      details.location, details.date, details.snippet⟩)

/-- Stage 1 (generator.py lines 361-364): official-site discovery,
only when the normalized pre-filled cell is empty. -/
def websiteStage (ω : Oracle) (company descr website0 : List Char) : Except Unit (List Char) :=
  if website0 = [] then find_official_site ω company descr else pure website0

/-- Stage 2 (lines 366-369): LinkedIn discovery. -/
def linkedinStage (ω : Oracle) (company linkedin0 : List Char) : List Char :=
  if linkedin0 = [] then find_linkedin_company ω company else linkedin0

/-- Stage 3 (lines 371-381): careers-page discovery with the
plain-search fallback. -/
def careersStage (ω : Oracle) (company website careers0 : List Char) : List Char :=
  if careers0 = [] then
    let c1 := if website ≠ [] then find_careers_on_domain ω website else []
    if c1 ≠ [] then c1
    else
      match (ω.search (company ++ TL " careers") 6).find? careerWordHit with
      | some u => normalize_url (some u)
      | none => []
  else careers0

/-- Stage 4 (lines 383-405): job-board discovery (ATS detection with
priority choice, careers-URL reuse, and the ATS-pattern search). -/
def joblistStage (ω : Oracle) (company careers joblist0 : List Char) : List Char :=
  if joblist0 = [] then
    let ats_hits := detect_ats_from_search ω company
    if ats_hits ≠ [] then choose_from_hits ats_hits
    else
      if !careers.isEmpty && careersWordsInLower careers then careers
      else
        match (ω.search (company ++ TL " jobs") 6).find? atsUrlHit with
        | some u => normalize_url (some u)
        | none => []
  else joblist0

/-- One iteration of the `for idx, row in out_df.iterrows()` loop
(generator.py lines 350-457), returning the updated row and its
contribution to `total_jobs_found`. -/
def enrich_row (ω : Oracle) (dp : DateParse) (row : Row) : Except Unit (Row × Nat) :=
  let company := pyStrip (pyStrCell row.companyName)
  let descr := pyStrip (pyStrCell row.companyDescr)
  if company = [] then .ok (row, 0)
  else
    (websiteStage ω company descr (normalize_url row.website)).bind fun website =>
      let linkedin := linkedinStage ω company (normalize_url row.linkedin)
      let careers := careersStage ω company website (normalize_url row.careers)
      let joblist := joblistStage ω company careers (normalize_url row.joblist)
      let jobs_to_write := if joblist ≠ [] then dispatchListings ω joblist else []
      let written := writeJobs ω dp jobs_to_write
      .ok ({ row with
          website := some website, linkedin := some linkedin,
          careers := some careers, joblist := some joblist,
          jobs := written ++ row.jobs.drop written.length }, written.length)

/-- `enrich_companies` over the scaffolded rows: sequential per-row
enrichment accumulating `total_jobs_found`. -/
def enrich_companies (ω : Oracle) (dp : DateParse) : List Row → Except Unit (List Row × Nat)
  | [] => .ok ([], 0)
  | r :: rest =>
    (enrich_row ω dp r).bind fun p =>
      (enrich_companies ω dp rest).map fun q => (p.1 :: q.1, p.2 + q.2)

/-! ## Concrete fixtures for witnesses and counterexamples -/

/-- A date parser that always fails (its value is irrelevant to every
property checked on these fixtures). -/
def dp0 : DateParse := fun _ => none

/-- An oracle whose every fetch returns HTTP 404. -/
def oracle404 : Oracle :=
  ⟨fun _ _ => [], fun _ => some ⟨404, []⟩, fun _ => []⟩

/-- An oracle with empty search results and unreachable HTTP. -/
def oracleEmpty : Oracle :=
  ⟨fun _ _ => [], fun _ => none, fun _ => []⟩

/-- A listing page with five job anchors with pairwise distinct targets. -/
def pageFive : List Node :=
  [.elem (TL "div") [] [
    .elem (TL "a") [(TL "href", TL "/jobs/1")] [.text (TL "A")],
    .elem (TL "a") [(TL "href", TL "/jobs/2")] [.text (TL "B")],
    .elem (TL "a") [(TL "href", TL "/jobs/3")] [.text (TL "C")],
    .elem (TL "a") [(TL "href", TL "/jobs/4")] [.text (TL "D")],
    .elem (TL "a") [(TL "href", TL "/jobs/5")] [.text (TL "E")]]]

/-- A listing page with two anchors whose targets differ only by a
trailing slash (equal after `normalize_url`, distinct before). -/
def pageDup : List Node :=
  [.elem (TL "div") [] [
    .elem (TL "a") [(TL "href", TL "/jobs/1")] [.text (TL "A")],
    .elem (TL "a") [(TL "href", TL "/jobs/1/")] [.text (TL "B")]]]

def listingUrl : List Char := TL "https://a.example/jobs"

/-- Serves `pageFive` at `listingUrl`. -/
def oracleFive : Oracle :=
  ⟨fun _ _ => [],
   fun u => if u = listingUrl then some ⟨200, TL "P5"⟩ else none,
   fun t => if t = TL "P5" then pageFive else []⟩

/-- Serves `pageDup` at `listingUrl`. -/
def oracleDup : Oracle :=
  ⟨fun _ _ => [],
   fun u => if u = listingUrl then some ⟨200, TL "PD"⟩ else none,
   fun t => if t = TL "PD" then pageDup else []⟩

/-- A job page whose description container holds a short text. -/
def pageSnippet : List Node :=
  [.elem (TL "article") [] [.text (TL "short text")]]

def oracleSnippet : Oracle :=
  ⟨fun _ _ => [],
   fun u => if u = TL "https://a.example/jobs/1" then some ⟨200, TL "PS"⟩ else none,
   fun t => if t = TL "PS" then pageSnippet else []⟩

/-- A row with every URL column pre-filled and a company name. -/
def rowPrefilled : Row :=
  ⟨some (TL "Acme"), some (TL "desc"),
   some (TL "example.com/"),
   some (TL "https://www.linkedin.com/company/acme"),
   some (TL "https://ex.co/careers"),
   some (TL "https://x.example/a"),
   [emptyJobPost, emptyJobPost, emptyJobPost]⟩

/-- `rowPrefilled` after enrichment under `oracleEmpty`: every stage is
skipped (all four normalized cells are non-empty) and the generic
listing parse finds nothing. -/
def rowPrefilledOut : Row :=
  ⟨some (TL "Acme"), some (TL "desc"),
   some (TL "https://example.com"),
   some (TL "https://www.linkedin.com/company/acme"),
   some (TL "https://ex.co/careers"),
   some (TL "https://x.example/a"),
   [emptyJobPost, emptyJobPost, emptyJobPost]⟩

/-- A row whose company-name cell is missing (`NaN`). -/
def rowMissingName : Row :=
  ⟨none, none, none, none, none, none, [emptyJobPost, emptyJobPost, emptyJobPost]⟩

/-- A row whose company-name cell holds the empty string. -/
def rowEmptyName : Row :=
  ⟨some [], none, some (TL "example.com/"), none, none, none,
   [emptyJobPost, emptyJobPost, emptyJobPost]⟩

/-- An oracle whose every search returns the single result `nan.com`. -/
def oracleNan : Oracle :=
  ⟨fun _ _ => [TL "nan.com"], fun _ => none, fun _ => []⟩

/-- Detected hits for both lever and workable, in detection
(`ATS_PROVIDERS`) order. -/
def hitsLeverWorkable : List (List Char × List Char) :=
  [(TL "lever", TL "https://jobs.lever.co/acme"),
   (TL "workable", TL "https://apply.workable.com/acme")]

/-- The spec's Site Scorer example candidates. -/
def resultsAcme : List (List Char) :=
  [TL "https://acme.io/about", TL "https://acme-corp.com"]

/-- Two candidates with equal code-scores (both −1+1 = 0) but different
spec-scores: the first has an empty path (0 claimed segments), the
second one segment. -/
def resultsTie : List (List Char) :=
  [TL "https://b.com", TL "https://c.com/x"]

/-- Decidable equality on `Except`, for evaluating the enrichment at
concrete fixtures. -/
instance exceptDecEq {ε α : Type} [DecidableEq ε] [DecidableEq α] :
    DecidableEq (Except ε α) := fun a b =>
  match a, b with
  | .ok x, .ok y =>
    if h : x = y then isTrue (by rw [h]) else isFalse (fun hc => by cases hc; exact h rfl)
  | .error x, .error y =>
    if h : x = y then isTrue (by rw [h]) else isFalse (fun hc => by cases hc; exact h rfl)
  | .ok _, .error _ => isFalse (fun hc => by cases hc)
  | .error _, .ok _ => isFalse (fun hc => by cases hc)

/-- A well-behaved host string: printable, no netloc terminator
(`/?#`), no brackets (C7's general statement quantifies over these). -/
def hostOk (l : List Char) : Bool :=
  l.all (fun c => 32 < c.toNat &&
    !(c = '/' || c = '?' || c = '#' || c = '[' || c = ']'))

/-! ## Helper lemmas -/

theorem dropWhile_idem (p : Char → Bool) (l : List Char) :
    (l.dropWhile p).dropWhile p = l.dropWhile p := by
  induction l with
  | nil => rfl
  | cons a t ih =>
    by_cases h : p a
    · simp [List.dropWhile_cons, h, ih]
    · simp [List.dropWhile_cons, h]

theorem rstripSlash_idem (l : List Char) :
    rstripSlash (rstripSlash l) = rstripSlash l := by
  unfold rstripSlash
  rw [List.reverse_reverse, dropWhile_idem]

theorem normalize_url_rstrip (c : Cell) :
    normalize_url c = [] ∨ rstripSlash (normalize_url c) = normalize_url c := by
  match c with
  | none => exact Or.inl rfl
  | some s =>
    by_cases h1 : s = []
    · exact Or.inl (by simp [normalize_url, h1])
    · by_cases h2 : pyStrip s = []
      · exact Or.inl (by simp [normalize_url, h1, h2])
      · right
        simp only [normalize_url, if_neg h1, if_neg h2]
        exact rstripSlash_idem _

theorem listingLoop_length_le (base : List Char) (anchors : List Node)
    (seen : List (List Char)) (out : List JobEntry)
    (h : out.length < MAX_JOBS_PER_COMPANY) :
    (listingLoop base anchors seen out).length ≤ MAX_JOBS_PER_COMPANY := by
  induction anchors generalizing seen out with
  | nil => rw [listingLoop]; exact Nat.le_of_lt h
  | cons a rest ih =>
    simp only [listingLoop]
    split
    · exact ih seen out h
    · split
      · exact ih seen out h
      · split <;>
        · split
          · exact ih seen out h
          · split
            next h2 => simp only [List.length_append, List.length_cons, List.length_nil]; omega
            next h2 => exact ih _ _ (Nat.lt_of_not_le h2)

/-! ## Claim theorems -/

/-- C10: the teamtailor, lever and workable listing parsers are
extensionally equal: on every oracle and listing URL all three return
the same result list. -/
theorem c10_parsers_extensionally_equal :
    (∀ (ω : Oracle) (u : List Char),
      parse_teamtailor_listings ω u = parse_lever_listings ω u) ∧
    (∀ (ω : Oracle) (u : List Char),
      parse_lever_listings ω u = parse_workable_listings ω u) :=
  ⟨fun _ _ => rfl, fun _ _ => rfl⟩

/-- C9: when the fetch of a job URL fails (`None` from `safe_get`) or
returns a non-200 status, `extract_job_details` returns the record with
all four fields empty, for every date parser. -/
theorem c9_extract_failure_empty (ω : Oracle) (dp : DateParse) (url : List Char)
    (h : ω.get url = none ∨ ∃ r, ω.get url = some r ∧ r.status ≠ 200) :
    extract_job_details ω dp url = ⟨[], [], [], []⟩ := by
  rcases h with h | ⟨r, hr, hs⟩
  · unfold extract_job_details
    rw [h]
  · unfold extract_job_details
    rw [hr]
    simp [hs]

theorem c9_extract_failure_empty_witness :
    ((oracle404.get (TL "https://x.co/j") = some ⟨404, []⟩ ∧ (404 : Nat) ≠ 200)) ∧
    extract_job_details oracle404 dp0 (TL "https://x.co/j") = ⟨[], [], [], []⟩ :=
  ⟨⟨rfl, by decide⟩,
    c9_extract_failure_empty oracle404 dp0 (TL "https://x.co/j")
      (Or.inr ⟨⟨404, []⟩, rfl, by decide⟩)⟩

/-- C1 (amended): `normalize` is idempotent on every input whose
normalized form is empty, or still carries an `http(s)://` prefix and
is unchanged by whitespace stripping.  (The unamended claim fails when
stripping trailing slashes destroys the `://` of a bare scheme, or
exposes trailing whitespace.) -/
theorem c1_normalize_idempotent (s : List Char)
    (h : normalize_url (some s) = [] ∨
      (schemeMatch (normalize_url (some s)) = true ∧
        pyStrip (normalize_url (some s)) = normalize_url (some s))) :
    normalize_url (some (normalize_url (some s))) = normalize_url (some s) := by
  rcases h with h | ⟨hm, hs⟩
  · rw [h]; rfl
  · have hne : normalize_url (some s) ≠ [] := by
      intro he
      rw [he] at hm
      exact absurd hm (by decide)
    have hr : rstripSlash (normalize_url (some s)) = normalize_url (some s) :=
      (normalize_url_rstrip (some s)).resolve_left hne
    conv_lhs => rw [normalize_url]
    rw [if_neg hne, hs, if_neg hne, if_pos hm, hr]

theorem c1_normalize_idempotent_witness :
    (schemeMatch (normalize_url (some (TL "https://example.com"))) = true ∧
      pyStrip (normalize_url (some (TL "https://example.com"))) =
        normalize_url (some (TL "https://example.com"))) ∧
    normalize_url (some (normalize_url (some (TL "https://example.com")))) =
      normalize_url (some (TL "https://example.com")) :=
  ⟨⟨by decide, by decide⟩,
    c1_normalize_idempotent (TL "https://example.com") (Or.inr ⟨by decide, by decide⟩)⟩

/-- C1 counterexample: `normalize("https://")` is `"https:"`, and
normalizing again yields `"https://https:"`, so the claimed unconditional
idempotence is false. -/
theorem c1_counterexample :
    normalize_url (some (normalize_url (some (TL "https://")))) ≠
      normalize_url (some (TL "https://")) := by
  decide

/-- C5 (amended): every parse returns at most `MAX_JOBS_PER_COMPANY`
entries; on the five-anchor fixture the result is exactly the first
three anchors in document order, with root-relative hrefs resolved
against the listing URL and pairwise distinct URLs.  (Deduplication
happens on the resolved href before `normalize_url`, not on the final
absolute URL — see the counterexample.) -/
theorem c5_parse_truncation_order :
    (∀ (ω : Oracle) (u : List Char),
      (parse_teamtailor_listings ω u).length ≤ MAX_JOBS_PER_COMPANY) ∧
    parse_teamtailor_listings oracleFive listingUrl =
      [⟨TL "https://a.example/jobs/1", TL "A"⟩,
       ⟨TL "https://a.example/jobs/2", TL "B"⟩,
       ⟨TL "https://a.example/jobs/3", TL "C"⟩] ∧
    ((parse_teamtailor_listings oracleFive listingUrl).map (fun e => e.url)).Nodup := by
  refine ⟨?_, by decide, by decide⟩
  intro ω u
  unfold parse_teamtailor_listings
  cases h : ω.get u with
  | none => exact Nat.zero_le _
  | some resp =>
    show (if resp.status ≠ 200 then []
      else listingLoop u (selectAnchors [TL "/jobs/"] (ω.parse resp.text)) [] []).length ≤
        MAX_JOBS_PER_COMPANY
    by_cases hs : resp.status ≠ 200
    · rw [if_pos hs]
      exact Nat.zero_le _
    · rw [if_neg hs]
      exact listingLoop_length_le _ _ [] [] (by decide)

/-- C5 counterexample: two anchors whose resolved hrefs differ only by
a trailing slash both survive deduplication, so the parse emits two
entries with the same final absolute URL — the claimed deduplication by
final absolute URL is false. -/
theorem c5_counterexample :
    parse_teamtailor_listings oracleDup listingUrl =
      [⟨TL "https://a.example/jobs/1", TL "A"⟩,
       ⟨TL "https://a.example/jobs/1", TL "B"⟩] ∧
    ¬ ((parse_teamtailor_listings oracleDup listingUrl).map (fun e => e.url)).Nodup := by
  exact ⟨by decide, by decide⟩

theorem priorityLoop_found (ps : List (List Char)) (hits : List (List Char × List Char)) :
    priorityLoop ps hits =
      match ps.find? (fun p => (hits.find? (fun x => x.1 == p)).isSome) with
      | some p => ((hits.find? (fun x => x.1 == p)).map (fun x => x.2)).getD []
      | none => [] := by
  induction ps with
  | nil => rfl
  | cons p ps ih =>
    rw [priorityLoop]
    cases hf : hits.find? (fun x => x.1 == p) with
    | some x =>
      rw [List.find?_cons_of_pos _ (by simp [hf])]
      simp [hf]
    | none =>
      rw [List.find?_cons_of_neg _ (by simp [hf])]
      exact ih

/-- C4: for a non-empty detected-hits mapping (whose URLs, being
normalized search results containing the provider host, are non-empty),
the job-board selection takes the URL of the first provider of the
fixed priority list present among the hits, and when no prioritized
provider matched, the first-inserted hit's URL. -/
theorem c4_priority_selection (hits : List (List Char × List Char))
    (hne : hits ≠ []) (hv : ∀ x ∈ hits, x.2 ≠ []) :
    choose_from_hits hits =
      match JOBLIST_PRIORITY.find? (fun p => (hits.find? (fun x => x.1 == p)).isSome) with
      | some p => ((hits.find? (fun x => x.1 == p)).map (fun x => x.2)).getD []
      | none => (hits.head?.map (fun x => x.2)).getD [] := by
  unfold choose_from_hits
  rw [priorityLoop_found JOBLIST_PRIORITY hits]
  cases hf : JOBLIST_PRIORITY.find? (fun p => (hits.find? (fun x => x.1 == p)).isSome) with
  | none =>
    cases hits with
    | nil => exact absurd rfl hne
    | cons hd tl => simp
  | some p =>
    have hp := List.find?_some hf
    cases hx : hits.find? (fun x => x.1 == p) with
    | none => rw [hx] at hp; exact absurd hp (by decide)
    | some x =>
      have hmem : x ∈ hits := List.mem_of_find?_eq_some hx
      have hxe : x.2 ≠ [] := hv x hmem
      simp [hx, hxe]

theorem c4_priority_selection_witness :
    hitsLeverWorkable ≠ [] ∧ (∀ x ∈ hitsLeverWorkable, x.2 ≠ []) ∧
    choose_from_hits hitsLeverWorkable = TL "https://jobs.lever.co/acme" := by
  refine ⟨by decide, by decide, ?_⟩
  rw [c4_priority_selection hitsLeverWorkable (by decide) (by decide)]
  decide

theorem extract_ok (ω : Oracle) (dp : DateParse) (url : List Char) (r : Response)
    (hget : ω.get url = some r) (hst : r.status = 200) :
    extract_job_details ω dp url =
      ⟨titleOf (ω.parse r.text),
       locationOf ω (ω.parse r.text),
       (if dateTextOf (ω.parse r.text) = [] then []
        else match dp (dateTextOf (ω.parse r.text)) with
          | some d => d
          | none => dateTextOf (ω.parse r.text)),
       (if mainTextOf (ω.parse r.text) = [] then []
        else (mainTextOf (ω.parse r.text)).take 500 ++ TL "...")⟩ := by
  unfold extract_job_details
  rw [hget]
  simp [hst]

/-- C2 (amended): on every successfully fetched job page the snippet is
empty exactly when no description text was found, and otherwise is the
first 500 characters of the text with the `"..."` marker always
appended — even when the text is 500 characters or fewer (so its length
is at most 503). -/
theorem c2_snippet_truncation (ω : Oracle) (dp : DateParse) (url : List Char) (r : Response)
    (hget : ω.get url = some r) (hst : r.status = 200) :
    (extract_job_details ω dp url).snippet =
      (if mainTextOf (ω.parse r.text) = [] then []
       else (mainTextOf (ω.parse r.text)).take 500 ++ TL "...") ∧
    (extract_job_details ω dp url).snippet.length ≤ 503 := by
  rw [extract_ok ω dp url r hget hst]
  refine ⟨rfl, ?_⟩
  show (if mainTextOf (ω.parse r.text) = [] then []
    else (mainTextOf (ω.parse r.text)).take 500 ++ TL "...").length ≤ 503
  split
  · simp
  · rw [List.length_append, List.length_take]
    have : (TL "...").length = 3 := rfl
    omega

theorem c2_snippet_truncation_witness :
    (oracleSnippet.get (TL "https://a.example/jobs/1") = some ⟨200, TL "PS"⟩ ∧
      (Response.mk 200 (TL "PS")).status = 200) ∧
    (extract_job_details oracleSnippet dp0 (TL "https://a.example/jobs/1")).snippet =
      (if mainTextOf (oracleSnippet.parse (TL "PS")) = [] then []
       else (mainTextOf (oracleSnippet.parse (TL "PS"))).take 500 ++ TL "...") ∧
    (extract_job_details oracleSnippet dp0 (TL "https://a.example/jobs/1")).snippet.length ≤ 503 :=
  ⟨⟨by decide, rfl⟩,
    (c2_snippet_truncation oracleSnippet dp0 (TL "https://a.example/jobs/1")
      ⟨200, TL "PS"⟩ (by decide) rfl).1,
    (c2_snippet_truncation oracleSnippet dp0 (TL "https://a.example/jobs/1")
      ⟨200, TL "PS"⟩ (by decide) rfl).2⟩

/-- C2 counterexample: a page whose description text is `"short text"`
(10 characters, well under 500) still gets the ellipsis marker appended,
so the claimed "returned unmodified when 500 characters or fewer" is
false. -/
theorem c2_counterexample :
    mainTextOf (oracleSnippet.parse (TL "PS")) = TL "short text" ∧
    (mainTextOf (oracleSnippet.parse (TL "PS"))).length ≤ 500 ∧
    (extract_job_details oracleSnippet dp0 (TL "https://a.example/jobs/1")).snippet ≠
      mainTextOf (oracleSnippet.parse (TL "PS")) :=
  ⟨by decide, by decide, by decide⟩

theorem dropWhile_eq_self_of_all (p : Char → Bool) (l : List Char)
    (h : ∀ c ∈ l, p c = false) : l.dropWhile p = l := by
  cases l with
  | nil => rfl
  | cons a t => simp [List.dropWhile_cons, h a (by simp)]

theorem stripEnds_eq_self (p : Char → Bool) (l : List Char)
    (h : ∀ c ∈ l, p c = false) :
    ((l.dropWhile p).reverse.dropWhile p).reverse = l := by
  rw [dropWhile_eq_self_of_all p l h,
    dropWhile_eq_self_of_all p l.reverse (fun c hc => h c (List.mem_reverse.mp hc)),
    List.reverse_reverse]

theorem cleanUrl_eq_self (l : List Char)
    (h : ∀ c ∈ l, isC0OrSpace c = false ∧ isUnsafeUrlChar c = false) :
    cleanUrl l = l := by
  unfold cleanUrl
  rw [stripEnds_eq_self _ _ (fun c hc => (h c hc).1)]
  exact List.filter_eq_self.mpr (fun c hc => by simp [(h c hc).2])

theorem takeWhile_append_of_all (p : Char → Bool) (a b : List Char)
    (h : ∀ c ∈ a, p c = true) : (a ++ b).takeWhile p = a ++ b.takeWhile p := by
  induction a with
  | nil => simp
  | cons x t ih =>
    have hx : p x = true := h x (by simp)
    simp only [List.cons_append, List.takeWhile_cons, hx, if_true]
    rw [ih (fun c hc => h c (by simp [hc]))]

theorem isC0OrSpace_false_of_gt32 (d : Char) (hd : 32 < d.toNat) :
    isC0OrSpace d = false := by
  simp only [isC0OrSpace, decide_eq_false_iff_not]
  omega

theorem isUnsafeUrlChar_false_of_gt32 (d : Char) (hd : 32 < d.toNat) :
    isUnsafeUrlChar d = false := by
  cases hsu : isUnsafeUrlChar d with
  | false => rfl
  | true =>
    exfalso
    simp only [isUnsafeUrlChar, Bool.or_eq_true, decide_eq_true_eq] at hsu
    rcases hsu with (hx | hx) | hx <;> subst hx <;> exact absurd hd (by decide)

theorem splitScheme_https (X : List Char) :
    splitSchemePair (TL "https://" ++ X) = (TL "https", TL "//" ++ X) := by
  unfold splitSchemePair
  have htake : (TL "https://" ++ X).takeWhile (fun c => c ≠ ':') = TL "https" := rfl
  rw [htake]
  have hlen : (TL "https://" ++ X).length = 8 + X.length := by
    rw [List.length_append]; rfl
  rw [if_neg (show ¬ ((TL "https").length = (TL "https://" ++ X).length) by
      rw [hlen]; show ¬ (5 = 8 + X.length); omega),
    if_neg (show ¬ ((TL "https").length = 0) by decide),
    if_pos (show (TL "https").all isSchemeChar = true by decide)]
  rfl

theorem netlocSplit_slashes (scheme Y : List Char) :
    netlocSplit scheme (TL "//" ++ Y) =
      bracketCheck scheme (Y.takeWhile (fun c => !isNetlocStop c))
        (Y.drop (Y.takeWhile (fun c => !isNetlocStop c)).length) := by
  unfold netlocSplit
  rw [if_pos (List.isPrefixOf_iff_prefix.mpr ⟨Y, rfl⟩)]
  rfl

/-- C7 (amended): over any well-behaved host `h`, `domain_of` of
`https://<h>/x` returns the lower-cased host with every occurrence of
`www.` removed (not only a leading one); parse failures yield the empty
string (the `.error` branch of the embedded parser). -/
theorem c7_domain_of_host (h : List Char) (hh : hostOk h = true) :
    domain_of (TL "https://" ++ (h ++ TL "/x")) = removeWWW (pyLower h) := by
  have hall := List.all_eq_true.mp hh
  have hprops : ∀ c ∈ h, 32 < c.toNat ∧ c ≠ '/' ∧ c ≠ '?' ∧ c ≠ '#' ∧ c ≠ '[' ∧ c ≠ ']' := by
    intro c hc
    have hx := hall c hc
    simp only [Bool.and_eq_true, Bool.not_eq_true', Bool.or_eq_false_iff,
      decide_eq_true_eq, decide_eq_false_iff_not] at hx
    refine ⟨hx.1, ?_, ?_, ?_, ?_, ?_⟩ <;> tauto
  have hlit : ∀ c ∈ TL "https://" ++ TL "/x",
      isC0OrSpace c = false ∧ isUnsafeUrlChar c = false := by decide
  have hclean : cleanUrl (TL "https://" ++ (h ++ TL "/x")) = TL "https://" ++ (h ++ TL "/x") := by
    apply cleanUrl_eq_self
    intro c hc
    rcases List.mem_append.mp hc with hc | hc
    · exact hlit c (List.mem_append.mpr (Or.inl hc))
    · rcases List.mem_append.mp hc with hc | hc
      · have h32 := (hprops c hc).1
        exact ⟨isC0OrSpace_false_of_gt32 c h32, isUnsafeUrlChar_false_of_gt32 c h32⟩
      · exact hlit c (List.mem_append.mpr (Or.inr hc))
  have hnet : (h ++ TL "/x").takeWhile (fun c => !isNetlocStop c) = h := by
    rw [takeWhile_append_of_all _ _ _ (fun c hc => by
      obtain ⟨-, h1, h2, h3, -, -⟩ := hprops c hc
      simp [isNetlocStop, h1, h2, h3])]
    rw [show List.takeWhile (fun c => !isNetlocStop c) (TL "/x") = [] from rfl]
    exact List.append_nil h
  have hdrop : (h ++ TL "/x").drop h.length = TL "/x" := List.drop_left h (TL "/x")
  have hbrna : '[' ∉ h := fun hc => ((hprops '[' hc).2.2.2.2.1) rfl
  have hbrnb : ']' ∉ h := fun hc => ((hprops ']' hc).2.2.2.2.2) rfl
  have hsplitE : urlsplitE (TL "https://" ++ (h ++ TL "/x")) =
      .ok ⟨TL "https", h, TL "/x"⟩ := by
    unfold urlsplitE urlsplitCore
    rw [hclean, splitScheme_https (h ++ TL "/x")]
    rw [netlocSplit_slashes, hnet, hdrop]
    unfold bracketCheck
    rw [if_neg (by
      push_neg
      exact ⟨fun ha => absurd ha hbrna, fun ha => absurd ha hbrnb⟩)]
    rfl
  unfold domain_of
  rw [hsplitE]

theorem c7_domain_of_host_witness :
    hostOk (TL "www.Example.com") = true ∧
    domain_of (TL "https://" ++ (TL "www.Example.com" ++ TL "/x")) = TL "example.com" := by
  refine ⟨by decide, ?_⟩
  rw [c7_domain_of_host (TL "www.Example.com") (by decide)]
  decide

/-- C7 counterexample: the host `abc.www.example.com` has no leading
`www.`, so under the claim `domain_of` would leave it unchanged (after
lowering); the code's `replace("www.", "")` removes the interior
occurrence as well. -/
theorem c7_counterexample :
    domain_of (TL "https://abc.www.Example.com/x") = TL "abc.example.com" ∧
    domain_of_leading (TL "https://abc.www.Example.com/x") = TL "abc.www.example.com" ∧
    ¬ (TL "abc.example.com" = TL "abc.www.example.com") :=
  ⟨by decide, by decide, by decide⟩

/-- C3 (amended): for a row that is not skipped (non-empty company
name), each URL field whose normalized pre-filled value is non-empty
triggers no discovery for that stage, and the output cell holds exactly
that normalized value — the value is preserved up to `normalize_url`
(trim, `https://` prepending, trailing-slash stripping), not
byte-for-byte. -/
theorem c3_prefilled_preserved (ω : Oracle) (dp : DateParse) (row : Row) (out : Row) (n : Nat)
    (hcomp : pyStrip (pyStrCell row.companyName) ≠ [])
    (henr : enrich_row ω dp row = .ok (out, n)) :
    (normalize_url row.website ≠ [] → out.website = some (normalize_url row.website)) ∧
    (normalize_url row.linkedin ≠ [] → out.linkedin = some (normalize_url row.linkedin)) ∧
    (normalize_url row.careers ≠ [] → out.careers = some (normalize_url row.careers)) ∧
    (normalize_url row.joblist ≠ [] → out.joblist = some (normalize_url row.joblist)) := by
  unfold enrich_row at henr
  rw [if_neg hcomp] at henr
  cases hws : websiteStage ω (pyStrip (pyStrCell row.companyName))
      (pyStrip (pyStrCell row.companyDescr)) (normalize_url row.website) with
  | error e =>
    rw [hws] at henr
    exact absurd henr (by simp [Except.bind])
  | ok w =>
    rw [hws] at henr
    simp only [Except.bind] at henr
    have h1 := Except.ok.inj henr
    rw [Prod.mk.injEq] at h1
    obtain ⟨ho, -⟩ := h1
    refine ⟨?_, ?_, ?_, ?_⟩
    · intro hw
      rw [websiteStage, if_neg hw] at hws
      have hwv : normalize_url row.website = w := Except.ok.inj hws
      rw [← ho, ← hwv]
    · intro hl
      rw [← ho]
      show some (linkedinStage ω (pyStrip (pyStrCell row.companyName))
        (normalize_url row.linkedin)) = _
      rw [linkedinStage, if_neg hl]
    · intro hc
      rw [← ho]
      show some (careersStage ω (pyStrip (pyStrCell row.companyName)) w
        (normalize_url row.careers)) = _
      rw [careersStage, if_neg hc]
    · intro hj
      rw [← ho]
      show some (joblistStage ω (pyStrip (pyStrCell row.companyName))
        (careersStage ω (pyStrip (pyStrCell row.companyName)) w (normalize_url row.careers))
        (normalize_url row.joblist)) = _
      rw [joblistStage, if_neg hj]

theorem c3_prefilled_preserved_witness :
    (pyStrip (pyStrCell rowPrefilled.companyName) ≠ [] ∧
      enrich_row oracleEmpty dp0 rowPrefilled = .ok (rowPrefilledOut, 0)) ∧
    (normalize_url rowPrefilled.website ≠ [] →
      rowPrefilledOut.website = some (normalize_url rowPrefilled.website)) ∧
    (normalize_url rowPrefilled.linkedin ≠ [] →
      rowPrefilledOut.linkedin = some (normalize_url rowPrefilled.linkedin)) ∧
    (normalize_url rowPrefilled.careers ≠ [] →
      rowPrefilledOut.careers = some (normalize_url rowPrefilled.careers)) ∧
    (normalize_url rowPrefilled.joblist ≠ [] →
      rowPrefilledOut.joblist = some (normalize_url rowPrefilled.joblist)) :=
  ⟨⟨by decide, by decide⟩,
    c3_prefilled_preserved oracleEmpty dp0 rowPrefilled rowPrefilledOut 0 (by decide) (by decide)⟩

/-- C3 counterexample: a pre-filled website cell `example.com/` is
written back as `https://example.com` — discovery is skipped but the
value is normalized, not preserved byte-for-byte. -/
theorem c3_counterexample :
    rowPrefilled.website = some (TL "example.com/") ∧
    enrich_row oracleEmpty dp0 rowPrefilled = .ok (rowPrefilledOut, 0) ∧
    rowPrefilledOut.website = some (TL "https://example.com") ∧
    rowPrefilledOut.website ≠ rowPrefilled.website :=
  ⟨by decide, by decide, by decide, by decide⟩

/-- C8: the guard `if not company: continue` does skip a row whose name
cell holds the empty string, but a missing (`NaN`) name cell becomes the
string `"nan"` under `str(...)`, so the row is NOT skipped: under an
oracle whose searches return `nan.com`, the enrichment writes a website
URL into a row with no company name. -/
theorem c8_missing_name_not_skipped :
    (enrich_row oracleNan dp0 rowMissingName).map (fun p => p.1.website) =
      .ok (some (TL "https://nan.com")) ∧
    rowMissingName.website = none ∧
    enrich_row oracleNan dp0 rowEmptyName = .ok (rowEmptyName, 0) :=
  ⟨by decide, rfl, by decide⟩

theorem strLtB_irrefl (a : List Char) : strLtB a a = false := by
  induction a with
  | nil => rfl
  | cons x xs ih => simp [strLtB, ih]

theorem strLtB_conn (a : List Char) : ∀ b, strLtB a b = false → strLtB b a = false → a = b := by
  induction a with
  | nil =>
    intro b hab _
    cases b with
    | nil => rfl
    | cons y ys => exact absurd hab (by simp [strLtB])
  | cons x xs ih =>
    intro b hab hba
    cases b with
    | nil => exact absurd hba (by simp [strLtB])
    | cons y ys =>
      simp only [strLtB] at hab hba
      by_cases hxy : x.toNat < y.toNat
      · rw [if_pos hxy] at hab; exact absurd hab (by decide)
      · by_cases hyx : y.toNat < x.toNat
        · rw [if_pos hyx] at hba; exact absurd hba (by decide)
        · rw [if_neg hxy, if_neg hyx] at hab
          rw [if_neg hyx, if_neg hxy] at hba
          have hn : x.toNat = y.toNat := by omega
          have hxe : x = y := Char.eq_of_val_eq (UInt32.ext hn)
          rw [hxe, ih ys hab hba]

theorem strLtB_trans (a : List Char) :
    ∀ b c, strLtB a b = true → strLtB b c = true → strLtB a c = true := by
  induction a with
  | nil =>
    intro b c hab hbc
    cases b with
    | nil => exact absurd hab (by decide)
    | cons y ys =>
      cases c with
      | nil => exact absurd hbc (by simp [strLtB])
      | cons z zs => rfl
  | cons x xs ih =>
    intro b c hab hbc
    cases b with
    | nil => exact absurd hab (by simp [strLtB])
    | cons y ys =>
      cases c with
      | nil => exact absurd hbc (by simp [strLtB])
      | cons z zs =>
        simp only [strLtB] at hab hbc ⊢
        by_cases hxy : x.toNat < y.toNat
        · by_cases hyz : y.toNat < z.toNat
          · rw [if_pos (show x.toNat < z.toNat by omega)]
          · rw [if_neg hyz] at hbc
            by_cases hzy : z.toNat < y.toNat
            · rw [if_pos hzy] at hbc; exact absurd hbc (by decide)
            · rw [if_pos (show x.toNat < z.toNat by omega)]
        · rw [if_neg hxy] at hab
          by_cases hyx : y.toNat < x.toNat
          · rw [if_pos hyx] at hab; exact absurd hab (by decide)
          · rw [if_neg hyx] at hab
            by_cases hyz : y.toNat < z.toNat
            · rw [if_pos (show x.toNat < z.toNat by omega)]
            · rw [if_neg hyz] at hbc
              by_cases hzy : z.toNat < y.toNat
              · rw [if_pos hzy] at hbc; exact absurd hbc (by decide)
              · rw [if_neg hzy] at hbc
                rw [if_neg (show ¬ x.toNat < z.toNat by omega),
                  if_neg (show ¬ z.toNat < x.toNat by omega)]
                exact ih ys zs hab hbc

theorem tupLtB_irrefl (a : Int × List Char) : tupLtB a a = false := by
  simp [tupLtB, strLtB_irrefl]

theorem tupLtB_conn (a b : Int × List Char)
    (hab : tupLtB a b = false) (hba : tupLtB b a = false) : a = b := by
  obtain ⟨s1, u1⟩ := a
  obtain ⟨s2, u2⟩ := b
  simp only [tupLtB] at hab hba
  by_cases h12 : s1 < s2
  · rw [if_pos h12] at hab; exact absurd hab (by decide)
  · by_cases h21 : s2 < s1
    · rw [if_pos h21] at hba; exact absurd hba (by decide)
    · rw [if_neg h12, if_neg h21] at hab
      rw [if_neg h21, if_neg h12] at hba
      have : s1 = s2 := by omega
      rw [this, strLtB_conn u1 u2 hab hba]

theorem tupLtB_trans (a b c : Int × List Char)
    (hab : tupLtB a b = true) (hbc : tupLtB b c = true) : tupLtB a c = true := by
  obtain ⟨s1, u1⟩ := a
  obtain ⟨s2, u2⟩ := b
  obtain ⟨s3, u3⟩ := c
  simp only [tupLtB] at hab hbc ⊢
  by_cases h12 : s1 < s2
  · by_cases h23 : s2 < s3
    · rw [if_pos (show s1 < s3 by omega)]
    · rw [if_neg h23] at hbc
      by_cases h32 : s3 < s2
      · rw [if_pos h32] at hbc; exact absurd hbc (by decide)
      · rw [if_pos (show s1 < s3 by omega)]
  · rw [if_neg h12] at hab
    by_cases h21 : s2 < s1
    · rw [if_pos h21] at hab; exact absurd hab (by decide)
    · rw [if_neg h21] at hab
      by_cases h23 : s2 < s3
      · rw [if_pos (show s1 < s3 by omega)]
      · rw [if_neg h23] at hbc
        by_cases h32 : s3 < s2
        · rw [if_pos h32] at hbc; exact absurd hbc (by decide)
        · rw [if_neg h32] at hbc
          rw [if_neg (show ¬ s1 < s3 by omega), if_neg (show ¬ s3 < s1 by omega)]
          exact strLtB_trans u1 u2 u3 hab hbc

/-- The reflexive order `a ≥ b` (i.e. `¬ a < b`) is transitive. -/
theorem tupGe_trans (a b c : Int × List Char)
    (hab : tupLtB a b = false) (hbc : tupLtB b c = false) : tupLtB a c = false := by
  cases hac : tupLtB a c with
  | false => rfl
  | true =>
    exfalso
    cases hcb : tupLtB c b with
    | true =>
      have := tupLtB_trans a c b hac hcb
      rw [this] at hab
      exact absurd hab (by decide)
    | false =>
      have hcbe : c = b := tupLtB_conn c b hcb hbc
      rw [hcbe] at hac
      rw [hac] at hab
      exact absurd hab (by decide)

theorem mem_insertDesc (x : Int × List Char) (l : List (Int × List Char)) (y : Int × List Char) :
    y ∈ insertDesc x l ↔ y = x ∨ y ∈ l := by
  induction l with
  | nil => simp [insertDesc]
  | cons a t ih =>
    simp only [insertDesc]
    split
    · simp only [List.mem_cons]
      try tauto
    · simp only [List.mem_cons, ih]
      try tauto

theorem insertDesc_head (x : Int × List Char) (l : List (Int × List Char)) :
    (insertDesc x l).head? = some x ∨ (insertDesc x l).head? = l.head? := by
  cases l with
  | nil => left; rfl
  | cons a t =>
    simp only [insertDesc]
    split
    · left; rfl
    · right; rfl

theorem chain_insertDesc (x : Int × List Char) (l : List (Int × List Char))
    (h : List.Chain' (fun a b => tupLtB a b = false) l) :
    List.Chain' (fun a b => tupLtB a b = false) (insertDesc x l) := by
  induction l with
  | nil => simp [insertDesc]
  | cons a t ih =>
    have ht : List.Chain' (fun a b => tupLtB a b = false) t := h.tail
    simp only [insertDesc]
    split
    next hlt =>
      rw [List.chain'_cons]
      refine ⟨?_, h⟩
      cases hxa : tupLtB x a with
      | false => rfl
      | true => exact absurd (tupLtB_trans x a x hxa hlt) (by simp [tupLtB_irrefl])
    next hge =>
      rw [List.chain'_cons']
      refine ⟨?_, ih ht⟩
      intro hd hhd
      have hax : tupLtB a x = false := by
        cases hv : tupLtB a x with
        | false => rfl
        | true => exact absurd hv hge
      rcases insertDesc_head x t with he | he
      · rw [he] at hhd
        have hxd : x = hd := Option.mem_some_iff.mp hhd
        rw [← hxd]
        exact hax
      · rw [he] at hhd
        exact (List.chain'_cons'.mp h).1 hd hhd

theorem mem_sortDesc (l : List (Int × List Char)) (y : Int × List Char) :
    y ∈ sortDesc l ↔ y ∈ l := by
  induction l with
  | nil => simp [sortDesc]
  | cons a t ih =>
    show y ∈ insertDesc a (sortDesc t) ↔ _
    rw [mem_insertDesc, ih, List.mem_cons]

theorem chain_sortDesc (l : List (Int × List Char)) :
    List.Chain' (fun a b => tupLtB a b = false) (sortDesc l) := by
  induction l with
  | nil => simp [sortDesc]
  | cons a t ih => exact chain_insertDesc a (sortDesc t) ih

theorem chain_head_ge (l : List (Int × List Char)) :
    ∀ h, List.Chain' (fun a b => tupLtB a b = false) (h :: l) →
      ∀ x ∈ l, tupLtB h x = false := by
  induction l with
  | nil => intro h _ x hx; cases hx
  | cons b t ih =>
    intro h hch x hx
    have hhb : tupLtB h b = false := (List.chain'_cons.mp hch).1
    have hbt := (List.chain'_cons.mp hch).2
    rcases List.mem_cons.mp hx with rfl | hx
    · exact hhb
    · exact tupGe_trans h b x hhb (ih b hbt x hx)

theorem sortDesc_head_ge (l : List (Int × List Char)) (p : Int × List Char)
    (hh : (sortDesc l).head? = some p) : ∀ x ∈ l, tupLtB p x = false := by
  intro x hx
  have hx' : x ∈ sortDesc l := (mem_sortDesc l x).mpr hx
  cases hsd : sortDesc l with
  | nil => rw [hsd] at hh; cases hh
  | cons h t =>
    rw [hsd] at hh hx'
    have hhp : h = p := Option.some.inj hh
    subst hhp
    rcases List.mem_cons.mp hx' with rfl | hx'
    · exact tupLtB_irrefl _
    · exact chain_head_ge t h (hsd ▸ chain_sortDesc l) x hx'

theorem build_scored_mem (tokens : List (List Char)) :
    ∀ (rs : List (List Char)) (scored : List (Int × List Char)),
      build_scored tokens rs = .ok scored →
      (∀ x ∈ scored, x.2 ∈ rs ∧ scoreE tokens x.2 = .ok x.1) ∧
      (∀ v ∈ rs, ∃ s, scoreE tokens v = .ok s ∧ (s, v) ∈ scored) := by
  intro rs
  induction rs with
  | nil =>
    intro scored h
    have : ([] : List (Int × List Char)) = scored := Except.ok.inj h
    subst this
    exact ⟨fun x hx => absurd hx (by simp), fun v hv => absurd hv (by simp)⟩
  | cons r rs ih =>
    intro scored h
    rw [build_scored] at h
    cases hs : scoreE tokens r with
    | error e => rw [hs] at h; exact absurd h (by simp [Except.bind])
    | ok s =>
      rw [hs] at h
      simp only [Except.bind] at h
      cases hb : build_scored tokens rs with
      | error e => rw [hb] at h; exact absurd h (by simp [Except.map])
      | ok t =>
        rw [hb] at h
        simp only [Except.map] at h
        have hsc : (s, r) :: t = scored := Except.ok.inj h
        subst hsc
        obtain ⟨ih1, ih2⟩ := ih t hb
        constructor
        · intro x hx
          rcases List.mem_cons.mp hx with rfl | hx
          · exact ⟨by simp, by simpa using hs⟩
          · obtain ⟨hm, hscx⟩ := ih1 x hx
            exact ⟨by simp [hm], hscx⟩
        · intro v hv
          rcases List.mem_cons.mp hv with rfl | hv
          · exact ⟨s, hs, by simp⟩
          · obtain ⟨sv, h1, h2⟩ := ih2 v hv
            exact ⟨sv, h1, by simp [h2]⟩

/-- C6 (amended): `pick_best_site` returns `none` for an empty candidate
list; when it returns a candidate `u` (no candidate made the unguarded
`urlparse` raise), `u` belongs to the list and every candidate's
`(score, url)` tuple is at most `u`'s in Python's tuple order — so `u`
has maximal code-score, ties broken toward the lexicographically
largest URL.  The code's score subtracts `min(len(path.strip('/')
.split('/')), 3)`, which is 1 (not 0) for an empty path — see the
counterexample against the spec's segment count. -/
theorem c6_pick_best_max (results : List (List Char)) (name : List Char) :
    pick_best_site [] name = .ok none ∧
    ∀ u, pick_best_site results name = .ok (some u) →
      u ∈ results ∧ results.all (fun v => scoreLeB (nameTokens name) v u) = true := by
  constructor
  · unfold pick_best_site
    rw [if_pos rfl]
  · intro u h
    by_cases hre : results = []
    · subst hre
      unfold pick_best_site at h
      rw [if_pos rfl] at h
      exact absurd (Except.ok.inj h) (by simp)
    · unfold pick_best_site at h
      rw [if_neg hre] at h
      have h' : (build_scored (nameTokens name) results).map
          (fun scored => ((sortDesc scored).head?).map (fun x => x.2)) = .ok (some u) := h
      cases hb : build_scored (nameTokens name) results with
      | error e => rw [hb] at h'; exact absurd h' (by simp [Except.map])
      | ok scored =>
        rw [hb] at h'
        simp only [Except.map] at h'
        have hf : ((sortDesc scored).head?).map (fun x => x.2) = some u := Except.ok.inj h'
        cases hhd : (sortDesc scored).head? with
        | none => rw [hhd] at hf; exact absurd hf (by simp)
        | some p =>
          rw [hhd] at hf
          simp only [Option.map_some'] at hf
          have hpu : p.2 = u := Option.some.inj hf
          obtain ⟨hm1, hm2⟩ := build_scored_mem (nameTokens name) results scored hb
          have hpmem : p ∈ scored := by
            have hmem : p ∈ sortDesc scored := by
              cases hsd : sortDesc scored with
              | nil => rw [hsd] at hhd; exact absurd hhd (by simp)
              | cons hh tt =>
                rw [hsd] at hhd
                rw [List.mem_cons]
                exact Or.inl (Option.some.inj hhd).symm
            exact (mem_sortDesc scored p).mp hmem
          obtain ⟨hpu_mem, hpscore⟩ := hm1 p hpmem
          refine ⟨hpu ▸ hpu_mem, ?_⟩
          rw [List.all_eq_true]
          intro v hv
          obtain ⟨sv, hsv, hsvmem⟩ := hm2 v hv
          have hge := sortDesc_head_ge scored p hhd (sv, v) hsvmem
          show scoreLeB (nameTokens name) v u = true
          rw [scoreLeB, hsv, ← hpu, hpscore]
          show (!tupLtB (p.1, p.2) (sv, v)) = true
          have hpeta : (p.1, p.2) = p := rfl
          rw [hpeta, hge]
          rfl

theorem c6_pick_best_max_witness :
    pick_best_site resultsAcme (TL "Acme Corp") = .ok (some (TL "https://acme-corp.com")) ∧
    (TL "https://acme-corp.com") ∈ resultsAcme ∧
    resultsAcme.all
      (fun v => scoreLeB (nameTokens (TL "Acme Corp")) v (TL "https://acme-corp.com")) = true ∧
    scoreE (nameTokens (TL "Acme Corp")) (TL "https://acme-corp.com") = .ok 6 ∧
    scoreE (nameTokens (TL "Acme Corp")) (TL "https://acme.io/about") = .ok 3 := by
  have h := (c6_pick_best_max resultsAcme (TL "Acme Corp")).2
    (TL "https://acme-corp.com") (by decide)
  exact ⟨by decide, h.1, h.2, by decide, by decide⟩

/-- C6 counterexample: with no usable name tokens, `https://b.com`
(empty path) and `https://c.com/x` (one segment) tie under the code's
score (`len("".split("/")) == 1`), and the code returns the
lexicographically larger `https://c.com/x`; under the claim's
path-segment-count (0 for an empty path) `https://b.com` scores
strictly higher, so the returned candidate is not score-maximal as
claimed. -/
theorem c6_counterexample :
    pick_best_site resultsTie (TL "zzz") = .ok (some (TL "https://c.com/x")) ∧
    (TL "https://b.com") ∈ resultsTie ∧
    claimScore (nameTokens (TL "zzz")) (TL "https://c.com/x") <
      claimScore (nameTokens (TL "zzz")) (TL "https://b.com") :=
  ⟨by decide, by decide, by decide⟩
